import Mathlib

set_option maxHeartbeats 1000000

/-!
Verification development for the catchalog repository (a fish-photo logging
application).  The development shallowly embeds:

* the model-response parsers of the two backend variants
  (`src/functions/src/index.ts` strips Markdown code fences and trims before
  `JSON.parse`; `src/mcp-server/src/index.ts` extracts the first greedy
  brace-delimited span, falling back to the literal empty object),
* a faithful JSON grammar parser standing in for JavaScript `JSON.parse`,
* the three identify handlers and the `backfillUserInfo` sweep,
* the image-downscaler dimension computation (the sharp `resize` call with
  `fit: inside`, bound 1568, `withoutEnlargement: true`),
* the browser client's record-editing/deleting state machine
  (`src/unnamed/part_000`), with the Firestore collection as explicit state.

Text is represented as `List Char`.  Characters that the surrounding tooling
treats specially are named constants.
-/

/-- The backtick character (code point 96). -/
def bquote : Char := Char.ofNat 96

/-- The opening curly brace character (code point 123). -/
def lbrace : Char := Char.ofNat 123

/-- The closing curly brace character (code point 125). -/
def rbrace : Char := Char.ofNat 125

/-- The double quote character (code point 34). -/
def dquote : Char := Char.ofNat 34

/-- Whitespace removed by JavaScript `String.prototype.trim` (the common
code points: space, tab, LF, VT, FF, CR, NBSP, BOM). -/
def jsWs (c : Char) : Bool :=
  c = ' ' || c = '\t' || c = '\n' || c = '\r' || c = Char.ofNat 11 ||
  c = Char.ofNat 12 || c = Char.ofNat 160 || c = Char.ofNat 65279

/-- Whitespace accepted between tokens by the JSON grammar. -/
def jsonWs (c : Char) : Bool :=
  c = ' ' || c = '\t' || c = '\n' || c = '\r'

/-- Embedding of JavaScript `String.prototype.trim`: drop whitespace from
the right end (via reverse), then from the left end. -/
def jsTrim (cs : List Char) : List Char :=
  ((cs.reverse.dropWhile jsWs).reverse).dropWhile jsWs

/-- State machine for the global regex replace
`text.replace(/BT BT BT json \n? | BT BT BT \n? /g, "")` (BT = backtick) from
`src/functions/src/index.ts`.  The state counts how much of a fence opener has
been consumed without being emitted: 0 = nothing pending, 1/2 = that many
backticks pending, 3 = a full triple backtick matched (it is deleted), 4-6 =
triple backtick plus that many characters of `json` seen, 7 = `json` complete,
an optional newline may still be swallowed. -/
def fenceGo : List Char → Nat → List Char
  | [], st =>
    if st = 1 then [bquote]
    else if st = 2 then [bquote, bquote]
    else if st = 4 then ['j']
    else if st = 5 then ['j', 's']
    else if st = 6 then ['j', 's', 'o']
    else []
  | c :: rest, st =>
    if st = 1 then
      if c = bquote then fenceGo rest 2 else bquote :: c :: fenceGo rest 0
    else if st = 2 then
      if c = bquote then fenceGo rest 3 else bquote :: bquote :: c :: fenceGo rest 0
    else if st = 3 then
      if c = 'j' then fenceGo rest 4
      else if c = '\n' then fenceGo rest 0
      else if c = bquote then fenceGo rest 1
      else c :: fenceGo rest 0
    else if st = 4 then
      if c = 's' then fenceGo rest 5
      else if c = bquote then 'j' :: fenceGo rest 1
      else 'j' :: c :: fenceGo rest 0
    else if st = 5 then
      if c = 'o' then fenceGo rest 6
      else if c = bquote then 'j' :: 's' :: fenceGo rest 1
      else 'j' :: 's' :: c :: fenceGo rest 0
    else if st = 6 then
      if c = 'n' then fenceGo rest 7
      else if c = bquote then 'j' :: 's' :: 'o' :: fenceGo rest 1
      else 'j' :: 's' :: 'o' :: c :: fenceGo rest 0
    else if st = 7 then
      if c = '\n' then fenceGo rest 0
      else if c = bquote then fenceGo rest 1
      else c :: fenceGo rest 0
    else
      if c = bquote then fenceGo rest 1 else c :: fenceGo rest 0

/-- The code-fence removal performed by the functions backend before
`JSON.parse`: the global replace of the fence regex by the empty string. -/
def fenceStrip (cs : List Char) : List Char := fenceGo cs 0

/-- The greedy bracket match `text.match(/ LB [sS]* RB /)` (LB/RB = braces)
from `src/mcp-server/src/index.ts`: the span from the first opening brace to
the last closing brace after it, if any. -/
def extractBrace (cs : List Char) : Option (List Char) :=
  match cs.dropWhile (fun c => !(c = lbrace : Bool)) with
  | [] => none
  | b :: rest =>
    match rest.reverse.dropWhile (fun c => !(c = rbrace : Bool)) with
    | [] => none
    | r :: rr => some (b :: (r :: rr).reverse)

/-- JSON values.  Numbers keep their source literal: no claim depends on
numeric semantics, only on syntactic validity and round-tripping. -/
inductive Json where
  | null : Json
  | bool : Bool → Json
  | num : List Char → Json
  | str : List Char → Json
  | arr : List Json → Json
  | obj : List (List Char × Json) → Json

/-- Skip JSON inter-token whitespace. -/
def skipJsonWs (cs : List Char) : List Char := cs.dropWhile jsonWs

/-- One or more decimal digits, returning them and the remainder. -/
def digits1 (cs : List Char) : Option (List Char × List Char) :=
  let ds := cs.takeWhile Char.isDigit
  if ds.isEmpty then none else some (ds, cs.drop ds.length)

/-- Optional exponent part of a JSON number literal. -/
def numExpPart (lit : List Char) (cs : List Char) : Option (List Char × List Char) :=
  match cs with
  | c :: rest =>
    if c = 'e' ∨ c = 'E' then
      match rest with
      | s :: rest2 =>
        if s = '+' ∨ s = '-' then
          match digits1 rest2 with
          | some (ds, r) => some (lit ++ [c, s] ++ ds, r)
          | none => none
        else
          match digits1 rest with
          | some (ds, r) => some (lit ++ [c] ++ ds, r)
          | none => none
      | [] => none
    else some (lit, cs)
  | [] => some (lit, cs)

/-- Optional fraction part of a JSON number literal, then the exponent. -/
def numFracPart (lit : List Char) (cs : List Char) : Option (List Char × List Char) :=
  match cs with
  | c :: rest =>
    if c = '.' then
      match digits1 rest with
      | some (ds, r) => numExpPart (lit ++ [c] ++ ds) r
      | none => none
    else numExpPart lit cs
  | [] => numExpPart lit cs

/-- A JSON number literal (sign, integer part with no leading zero, optional
fraction and exponent), returning the literal and the remainder. -/
def numLit (cs : List Char) : Option (List Char × List Char) :=
  let sp : List Char × List Char :=
    match cs with
    | c :: rest => if c = '-' then ([c], rest) else ([], cs)
    | [] => ([], cs)
  match sp.2 with
  | [] => none
  | c :: rest =>
    if c = '0' then numFracPart (sp.1 ++ [c]) rest
    else if c.isDigit then
      let ds := rest.takeWhile Char.isDigit
      numFracPart (sp.1 ++ [c] ++ ds) (rest.drop ds.length)
    else none

/-- Hexadecimal digit value. -/
def hexVal (c : Char) : Option Nat :=
  if '0' ≤ c ∧ c ≤ '9' then some (c.toNat - '0'.toNat)
  else if 'a' ≤ c ∧ c ≤ 'f' then some (c.toNat - 'a'.toNat + 10)
  else if 'A' ≤ c ∧ c ≤ 'F' then some (c.toNat - 'A'.toNat + 10)
  else none

/-- Body of a JSON string after the opening quote: content characters and
escape sequences, up to the closing quote.  Fuel-indexed so the kernel can
evaluate it; the fuel supplied is always sufficient (one unit per character). -/
def parseStrBody : Nat → List Char → Option (List Char × List Char)
  | 0, _ => none
  | _ + 1, [] => none
  | fuel + 1, c :: rest =>
    if c = dquote then some ([], rest)
    else if c = '\\' then
      match rest with
      | [] => none
      | e :: rest2 =>
        if e = dquote then (parseStrBody fuel rest2).map (fun p => (dquote :: p.1, p.2))
        else if e = '\\' then (parseStrBody fuel rest2).map (fun p => ('\\' :: p.1, p.2))
        else if e = '/' then (parseStrBody fuel rest2).map (fun p => ('/' :: p.1, p.2))
        else if e = 'b' then (parseStrBody fuel rest2).map (fun p => (Char.ofNat 8 :: p.1, p.2))
        else if e = 'f' then (parseStrBody fuel rest2).map (fun p => (Char.ofNat 12 :: p.1, p.2))
        else if e = 'n' then (parseStrBody fuel rest2).map (fun p => ('\n' :: p.1, p.2))
        else if e = 'r' then (parseStrBody fuel rest2).map (fun p => ('\r' :: p.1, p.2))
        else if e = 't' then (parseStrBody fuel rest2).map (fun p => ('\t' :: p.1, p.2))
        else if e = 'u' then
          match rest2 with
          | a :: b :: c2 :: d :: rest3 =>
            match hexVal a, hexVal b, hexVal c2, hexVal d with
            | some x, some y, some z, some t =>
              (parseStrBody fuel rest3).map
                (fun p => (Char.ofNat (4096 * x + 256 * y + 16 * z + t) :: p.1, p.2))
            | _, _, _, _ => none
          | _ => none
        else none
    else if c.toNat < 32 then none
    else (parseStrBody fuel rest).map (fun p => (c :: p.1, p.2))

/-- Array-element loop of the JSON parser, parameterised by the value parser
for the current fuel level. -/
def parseElemsF (pv : List Char → Option (Json × List Char)) :
    Nat → List Char → List Json → Option (Json × List Char)
  | 0, _, _ => none
  | fuel + 1, cs, acc =>
    match pv cs with
    | none => none
    | some (v, rest) =>
      match skipJsonWs rest with
      | c :: rest2 =>
        if c = ',' then parseElemsF pv fuel rest2 (acc ++ [v])
        else if c = ']' then some (.arr (acc ++ [v]), rest2)
        else none
      | [] => none

/-- Object-member loop of the JSON parser, parameterised by the value parser
for the current fuel level. -/
def parseMembersF (pv : List Char → Option (Json × List Char)) :
    Nat → List Char → List (List Char × Json) → Option (Json × List Char)
  | 0, _, _ => none
  | fuel + 1, cs, acc =>
    match skipJsonWs cs with
    | q :: rest =>
      if q = dquote then
        match parseStrBody (rest.length + 1) rest with
        | none => none
        | some (key, rest2) =>
          match skipJsonWs rest2 with
          | c :: rest3 =>
            if c = ':' then
              match pv rest3 with
              | none => none
              | some (v, rest4) =>
                match skipJsonWs rest4 with
                | d :: rest5 =>
                  if d = ',' then parseMembersF pv fuel rest5 (acc ++ [(key, v)])
                  else if d = rbrace then some (.obj (acc ++ [(key, v)]), rest5)
                  else none
                | [] => none
            else none
          | [] => none
      else none
    | [] => none

/-- JSON value parser (fuel-indexed; the top-level entry point supplies
enough fuel for any input). -/
def parseVal : Nat → List Char → Option (Json × List Char)
  | 0, _ => none
  | fuel + 1, cs =>
    match skipJsonWs cs with
    | [] => none
    | c :: rest =>
      if c = 'n' then
        if ['u', 'l', 'l'].isPrefixOf rest then some (.null, rest.drop 3) else none
      else if c = 't' then
        if ['r', 'u', 'e'].isPrefixOf rest then some (.bool true, rest.drop 3) else none
      else if c = 'f' then
        if ['a', 'l', 's', 'e'].isPrefixOf rest then some (.bool false, rest.drop 4) else none
      else if c = dquote then
        (parseStrBody (rest.length + 1) rest).map (fun p => (.str p.1, p.2))
      else if c = lbrace then
        match skipJsonWs rest with
        | d :: rest2 =>
          if d = rbrace then some (.obj [], rest2)
          else parseMembersF (parseVal fuel) fuel (d :: rest2) []
        | [] => none
      else if c = '[' then
        match skipJsonWs rest with
        | d :: rest2 =>
          if d = ']' then some (.arr [], rest2)
          else parseElemsF (parseVal fuel) fuel (d :: rest2) []
        | [] => none
      else
        (numLit (c :: rest)).map (fun p => (.num p.1, p.2))

/-- Embedding of JavaScript `JSON.parse`: parse one value, allow trailing
whitespace only, fail otherwise. -/
def jsonParse (cs : List Char) : Option Json :=
  match parseVal (2 * cs.length + 2) cs with
  | some (v, rest) => if (skipJsonWs rest).isEmpty then some v else none
  | none => none

/-- Response parsing of the functions backend (`src/functions/src/index.ts`):
remove code fences, trim, `JSON.parse`. -/
def parseVariantA (cs : List Char) : Option Json :=
  jsonParse (jsTrim (fenceStrip cs))

/-- Response parsing of the mcp-server backend (`src/mcp-server/src/index.ts`):
`JSON.parse` of the greedy brace match, with the literal empty-object text as
fallback when there is no match. -/
def parseVariantB (cs : List Char) : Option Json :=
  jsonParse ((extractBrace cs).getD [lbrace, rbrace])

/-- JavaScript truthiness of an optional string (`undefined` and the empty
string are falsy). -/
def truthy (o : Option String) : Bool :=
  match o with
  | some s => !(s = "" : Bool)
  | none => false

/-- JavaScript `s || d` for strings. -/
def strOr (s d : String) : String := if s = "" then d else s

/-- JavaScript `o || d` where `o` may be `undefined`. -/
def optOr (o : Option String) (d : String) : String :=
  match o with
  | some s => strOr s d
  | none => d

/-- JavaScript `o || null` where `o` may be `undefined` or empty. -/
def optNonempty (o : Option String) : Option String :=
  match o with
  | some s => if s = "" then none else some s
  | none => none

/-- Whether a JSON number literal denotes zero (all mantissa digits are 0). -/
def numLitZero (lit : List Char) : Bool :=
  ((lit.takeWhile (fun c => !(c = 'e' ∨ c = 'E' : Bool))).filter Char.isDigit).all
    (fun c => c = '0')

/-- JavaScript truthiness of a JSON value (objects and arrays are always
truthy; only the `catchDetails || RB LB` fallback of the mcp-server handler
uses this). -/
def jsTruthy (v : Json) : Bool :=
  match v with
  | .null => false
  | .bool b => b
  | .num lit => !numLitZero lit
  | .str s => !s.isEmpty
  | .arr _ => true
  | .obj _ => true

/-- Marker for the server-assigned `FieldValue.serverTimestamp()` sentinel. -/
inductive ServerTs where
  | sentinel : ServerTs
  deriving DecidableEq

/-- Profile returned by the identity provider (`admin.auth().getUser`). -/
structure AuthProfile where
  displayName : Option String
  photoURL : Option String

/-- Oracle for the external collaborators of one identify invocation:
the blob download, the existence check, the identity lookup, and the model
response text (`none` models the corresponding failure). -/
structure PipelineEnv where
  download : Option (List Nat)
  fileExists : Bool
  authUser : Option AuthProfile
  modelText : Option (List Char)

/-- External calls an identify invocation can make, in order of issue. -/
inductive ExtCall where
  | download : ExtCall
  | authGetUser : ExtCall
  | fileExistsCheck : ExtCall
  | signUrl : ExtCall
  | modelInvoke : ExtCall
  deriving DecidableEq

/-- Body of a `POST /identifyFish` request.  `imageDownloadUrl` and
`catchDetails` are modeled as present (the client always sends them, and a
Firestore write of `undefined` cannot produce a record). -/
structure Request where
  method : String
  imageUrl : Option String
  imageDownloadUrl : String
  userId : Option String
  catchDetails : Json

/-- HTTP outcome of the functions handlers: 405 plain text, 400 with a fixed
message, the generic 500 `error: Failed to identify fish` (details logged
only), or 200 with the identification and echoed catch details. -/
inductive HttpResult where
  | methodNotAllowed : HttpResult
  | clientError (msg : String) : HttpResult
  | serverError : HttpResult
  | ok (identification : Json) (catchDetails : Json) : HttpResult

/-- Document written by the first functions variant. -/
structure DocPlain where
  userId : Option String
  imageUrl : String
  identification : Json
  catchDetails : Json
  timestamp : ServerTs

/-- Document written by the enriched functions variant (adds the identity
snapshot). -/
structure DocEnriched where
  userId : Option String
  userDisplayName : String
  userPhotoURL : Option String
  imageUrl : String
  identification : Json
  catchDetails : Json
  timestamp : ServerTs

/-- First `identifyFish` variant of `src/functions/src/index.ts`: method and
required-field guards, asset download, downscale, model call, fence-strip
parse, Firestore write.  Returns the HTTP result, the external calls made,
and the written document (if any). -/
def identifyFish (env : PipelineEnv) (req : Request) :
    HttpResult × List ExtCall × Option DocPlain :=
  if !(req.method = "POST" : Bool) then (.methodNotAllowed, [], none)
  else if !(truthy req.imageUrl && truthy req.userId) then
    (.clientError "Missing required fields", [], none)
  else
    match env.download with
    | none => (.serverError, [.download], none)
    | some _ =>
      match env.modelText with
      | none => (.serverError, [.download, .modelInvoke], none)
      | some t =>
        match parseVariantA t with
        | none => (.serverError, [.download, .modelInvoke], none)
        | some idn =>
          (.ok idn req.catchDetails, [.download, .modelInvoke],
            some { userId := req.userId, imageUrl := req.imageDownloadUrl,
                   identification := idn, catchDetails := req.catchDetails,
                   timestamp := .sentinel })

/-- Second `identifyFish` variant of `src/functions/src/index.ts`: as the
first, but after the field guard it fetches the caller's identity profile
(failure is caught and falls back to the `Anonymous` defaults) and writes the
snapshot fields with the record. -/
def identifyFishEnriched (env : PipelineEnv) (req : Request) :
    HttpResult × List ExtCall × Option DocEnriched :=
  if !(req.method = "POST" : Bool) then (.methodNotAllowed, [], none)
  else if !(truthy req.imageUrl && truthy req.userId) then
    (.clientError "Missing required fields", [], none)
  else
    let name0 : String :=
      match env.authUser with
      | some p => optOr p.displayName "Anonymous"
      | none => "Anonymous"
    let photo0 : Option String :=
      match env.authUser with
      | some p => optNonempty p.photoURL
      | none => none
    match env.download with
    | none => (.serverError, [.authGetUser, .download], none)
    | some _ =>
      match env.modelText with
      | none => (.serverError, [.authGetUser, .download, .modelInvoke], none)
      | some t =>
        match parseVariantA t with
        | none => (.serverError, [.authGetUser, .download, .modelInvoke], none)
        | some idn =>
          (.ok idn req.catchDetails, [.authGetUser, .download, .modelInvoke],
            some { userId := req.userId, userDisplayName := strOr name0 "Anonymous",
                   userPhotoURL := photo0, imageUrl := req.imageDownloadUrl,
                   identification := idn, catchDetails := req.catchDetails,
                   timestamp := .sentinel })

/-- Arguments of the mcp-server `identify_fish` tool (required per the tool
schema; `catchDetails` is genuinely optional and defaulted in the handler). -/
structure McpArgs where
  imageUrl : String
  imageDownloadUrl : String
  userId : String
  catchDetails : Option Json

/-- Outcome of the mcp-server tool call: an `isError` text reply, or the
success payload carrying the identification. -/
inductive McpResult where
  | error : McpResult
  | ok (identification : Json) : McpResult

/-- Document written by the mcp-server handler. -/
structure DocMcp where
  userId : String
  imageUrl : String
  identification : Json
  catchDetails : Json
  timestamp : ServerTs

/-- The `catchDetails || RB LB` expression of the mcp-server handler: the
supplied value when truthy, the empty object otherwise. -/
def mcpCatchDetails (o : Option Json) : Json :=
  match o with
  | some cd => if jsTruthy cd then cd else Json.obj []
  | none => Json.obj []

/-- The `identify_fish` handler of `src/mcp-server/src/index.ts`: existence
check, signed URL, model call, greedy brace-match parse with the empty-object
fallback, Firestore write of `catchDetails || RB LB`. -/
def identify_fish (env : PipelineEnv) (args : McpArgs) :
    McpResult × List ExtCall × Option DocMcp :=
  if !env.fileExists then (.error, [.fileExistsCheck], none)
  else
    match env.modelText with
    | none => (.error, [.fileExistsCheck, .signUrl, .modelInvoke], none)
    | some t =>
      match parseVariantB t with
      | none => (.error, [.fileExistsCheck, .signUrl, .modelInvoke], none)
      | some idn =>
        (.ok idn, [.fileExistsCheck, .signUrl, .modelInvoke],
          some { userId := args.userId, imageUrl := args.imageDownloadUrl,
                 identification := idn,
                 catchDetails := mcpCatchDetails args.catchDetails,
                 timestamp := .sentinel })

/-- A document as seen by the `backfillUserInfo` sweep: the three fields the
sweep inspects or writes, plus the rest of the document. -/
structure BFDoc where
  userId : Option String
  userDisplayName : Option String
  userPhotoURL : Option String
  rest : Json

/-- Per-document action of `backfillUserInfo` in `src/functions/src/index.ts`:
skip when `userDisplayName` is truthy and not `Anonymous`; otherwise, when
`userId` is truthy and the identity lookup succeeds, update exactly
`userDisplayName` and `userPhotoURL`; otherwise leave the document alone. -/
def backfillStep (auth : String → Option AuthProfile) (d : BFDoc) : BFDoc :=
  if truthy d.userDisplayName && !(d.userDisplayName = some "Anonymous" : Bool) then d
  else
    match d.userId with
    | some u =>
      if u = "" then d
      else
        match auth u with
        | some p =>
          { d with userDisplayName := some (optOr p.displayName "Anonymous"),
                   userPhotoURL := optNonempty p.photoURL }
        | none => d
    | none => d

/-- The whole backfill sweep: every document of the catches collection is
processed by `backfillStep`. -/
def backfillUserInfo (auth : String → Option AuthProfile) (docs : List BFDoc) :
    List BFDoc :=
  docs.map (backfillStep auth)

/-- Division rounding half up, as `round` does for the nonnegative scale
factors involved in the resize. -/
def roundDiv (a b : Nat) : Nat := (2 * a + b) / (2 * b)

/-- Output dimensions of the sharp call
`resize(1568, 1568, fit: inside, withoutEnlargement: true)` from
`src/functions/src/index.ts`: images already inside the 1568-pixel box are
left alone; otherwise both edges are scaled by the one factor that maps the
longer edge to 1568, rounding to the nearest pixel. -/
def shrinkDims (w h : Nat) : Nat × Nat :=
  if w ≤ 1568 ∧ h ≤ 1568 then (w, h)
  else if h ≤ w then (1568, roundDiv (h * 1568) w)
  else (roundDiv (w * 1568) h, 1568)

/-- User-entered catch details as stored in a catch document
(`src/unnamed/part_000`, interface `FishCatch`); every field is optional. -/
structure CatchDetails where
  location : Option String
  method : Option String
  date : Option String
  notes : Option String
  deriving DecidableEq

/-- The identification object of a catch document. -/
structure Identification where
  commonName : String
  scientificName : String
  confidence : String
  characteristics : List String
  habitat : String
  averageSize : String
  notes : String
  family : Option String
  deriving DecidableEq

/-- A catch document as the browser client sees it. -/
structure ClientCatch where
  id : String
  userId : Option String
  userDisplayName : Option String
  userPhotoURL : Option String
  imageUrl : String
  identification : Identification
  catchDetails : CatchDetails
  timestamp : Nat
  deriving DecidableEq

/-- The `editedDetails` form state of the client. -/
structure EditedDetails where
  location : String
  method : String
  notes : String
  commonName : String
  scientificName : String
  deriving DecidableEq

/-- Default (empty) form state. -/
def emptyEdited : EditedDetails :=
  { location := "", method := "", notes := "", commonName := "", scientificName := "" }

/-- `handleEditCatch`: the form is initialised from the selected catch, with
`x || ""` for each field. -/
def initEdited (c : ClientCatch) : EditedDetails :=
  { location := optOr c.catchDetails.location ""
    method := optOr c.catchDetails.method ""
    notes := optOr c.catchDetails.notes ""
    commonName := strOr c.identification.commonName ""
    scientificName := strOr c.identification.scientificName "" }

/-- The `updateDoc` merge performed by `handleSaveEdit`: exactly the five
field paths `catchDetails.location`, `catchDetails.method`,
`catchDetails.notes`, `identification.commonName`,
`identification.scientificName` are written. -/
def applyEditUpdate (e : EditedDetails) (d : ClientCatch) : ClientCatch :=
  { d with
    catchDetails :=
      { d.catchDetails with
        location := some e.location, method := some e.method, notes := some e.notes }
    identification :=
      { d.identification with
        commonName := e.commonName, scientificName := e.scientificName } }

/-- `isOwnCatch` from the client: the current user exists and matches the
record's `userId`. -/
def isOwnCatch (user : Option String) (c : ClientCatch) : Bool :=
  match user with
  | some u => c.userId = some u
  | none => false

/-- Client-side application state relevant to record mutation: the signed-in
user, the Firestore collection and storage assets (as explicit state), the
open detail modal and the edit mode. -/
structure ClientState where
  user : Option String
  docs : List ClientCatch
  assets : List String
  selectedCatch : Option ClientCatch
  isEditing : Bool
  editedDetails : EditedDetails
  deriving DecidableEq

/-- Store mutations issued to Firestore/Storage, tagged with the signed-in
user that issued them. -/
inductive Mutation where
  | assetDelete (actor : String) (url : String) (found : Bool) : Mutation
  | docUpdate (actor : String) (old updated : ClientCatch) : Mutation
  | docDelete (actor : String) (c : ClientCatch) : Mutation
  deriving DecidableEq

/-- User-interface events of the client.  An event is only possible when the
corresponding control is rendered: the edit and delete buttons exist only for
an owned selected catch outside edit mode, the save/cancel buttons and the
form inputs only in edit mode, sign-in only on the logged-out page. -/
inductive ClientEvent where
  | select (c : ClientCatch) : ClientEvent
  | close : ClientEvent
  | clickEdit : ClientEvent
  | setLocation (v : String) : ClientEvent
  | setMethod (v : String) : ClientEvent
  | setNotes (v : String) : ClientEvent
  | setCommonName (v : String) : ClientEvent
  | setScientificName (v : String) : ClientEvent
  | save : ClientEvent
  | cancel : ClientEvent
  | deleteConfirm : ClientEvent
  | deleteAbort : ClientEvent
  | signOut : ClientEvent
  | signIn (u : String) : ClientEvent
  deriving DecidableEq

/-- Form-input events share this shape. -/
def editField (s : ClientState) (f : EditedDetails → EditedDetails) :
    Option (ClientState × List Mutation) :=
  match s.user, s.selectedCatch with
  | some _, some _ =>
    if s.isEditing then some ({ s with editedDetails := f s.editedDetails }, []) else none
  | _, _ => none

/-- One step of the client.  `none` means the event is impossible in this
state (its control is not rendered, or its handler returns early).  Mirrors
`handleEditCatch`, `handleSaveEdit`, `handleCancelEdit`, `handleDeleteCatch`,
`handleSignOut`, `handleSignIn` and the render guards of
`src/unnamed/part_000`.  Note that `handleSignOut` clears neither
`selectedCatch` nor `isEditing`. -/
def step (s : ClientState) (e : ClientEvent) : Option (ClientState × List Mutation) :=
  match e with
  | .select c =>
    match s.user with
    | some _ =>
      if c ∈ s.docs then some ({ s with selectedCatch := some c, isEditing := false }, [])
      else none
    | none => none
  | .close =>
    match s.user, s.selectedCatch with
    | some _, some _ => some ({ s with selectedCatch := none, isEditing := false }, [])
    | _, _ => none
  | .clickEdit =>
    match s.user, s.selectedCatch with
    | some _, some c =>
      if !s.isEditing && isOwnCatch s.user c then
        some ({ s with editedDetails := initEdited c, isEditing := true }, [])
      else none
    | _, _ => none
  | .setLocation v => editField s (fun ed => { ed with location := v })
  | .setMethod v => editField s (fun ed => { ed with method := v })
  | .setNotes v => editField s (fun ed => { ed with notes := v })
  | .setCommonName v => editField s (fun ed => { ed with commonName := v })
  | .setScientificName v => editField s (fun ed => { ed with scientificName := v })
  | .save =>
    match s.user, s.selectedCatch with
    | some u, some c =>
      if s.isEditing then
        if s.docs.any (fun d => d.id = c.id) then
          some ({ s with
              docs := s.docs.map
                (fun d => if d.id = c.id then applyEditUpdate s.editedDetails d else d),
              selectedCatch := some (applyEditUpdate s.editedDetails c),
              isEditing := false },
            s.docs.filterMap
              (fun d => if d.id = c.id then
                some (.docUpdate u d (applyEditUpdate s.editedDetails d)) else none))
        else some (s, [])
      else none
    | _, _ => none
  | .cancel =>
    match s.user, s.selectedCatch with
    | some _, some c =>
      if s.isEditing then
        some ({ s with isEditing := false, editedDetails := initEdited c }, [])
      else none
    | _, _ => none
  | .deleteConfirm =>
    match s.user, s.selectedCatch with
    | some u, some c =>
      if !s.isEditing && isOwnCatch s.user c then
        some ({ s with
            assets := s.assets.erase c.imageUrl,
            docs := s.docs.filter (fun d => !(d.id = c.id : Bool)),
            selectedCatch := none,
            isEditing := false },
          .assetDelete u c.imageUrl (s.assets.contains c.imageUrl) ::
            s.docs.filterMap
              (fun d => if d.id = c.id then some (.docDelete u d) else none))
      else none
    | _, _ => none
  | .deleteAbort =>
    match s.user, s.selectedCatch with
    | some _, some c =>
      if !s.isEditing && isOwnCatch s.user c then some (s, []) else none
    | _, _ => none
  | .signOut =>
    match s.user with
    | some _ => some ({ s with user := none }, [])
    | none => none
  | .signIn u =>
    match s.user with
    | none => some ({ s with user := some u }, [])
    | some _ => none

/-- Run a list of client events, accumulating the issued store mutations. -/
def clientRun (s : ClientState) : List ClientEvent → Option (ClientState × List Mutation)
  | [] => some (s, [])
  | e :: es =>
    match step s e with
    | none => none
    | some (s', ms) =>
      match clientRun s' es with
      | none => none
      | some (s'', ms') => some (s'', ms ++ ms')

/-- Whether an event changes the signed-in user. -/
def isAuthEvent : ClientEvent → Bool
  | .signOut => true
  | .signIn _ => true
  | _ => false

/-- Insertion into a timestamp-descending list. -/
def insertByTs (c : ClientCatch) : List ClientCatch → List ClientCatch
  | [] => [c]
  | d :: ds => if d.timestamp ≤ c.timestamp then c :: d :: ds else d :: insertByTs c ds

/-- `orderBy(timestamp, desc)`. -/
def sortByTimestampDesc : List ClientCatch → List ClientCatch
  | [] => []
  | c :: cs => insertByTs c (sortByTimestampDesc cs)

/-- `loadCatches`: the user's records ordered by timestamp descending. -/
def listCatches (u : String) (docs : List ClientCatch) : List ClientCatch :=
  sortByTimestampDesc (docs.filter (fun d => d.userId = some u))

/-- `loadCommunityCatches`: all records ordered by timestamp descending. -/
def listAllCatches (docs : List ClientCatch) : List ClientCatch :=
  sortByTimestampDesc docs

/-- The frame of a permitted edit: everything outside `catchDetails.location`,
`catchDetails.method`, `catchDetails.notes`, `identification.commonName` and
`identification.scientificName` is unchanged. -/
def permittedEdit (old updated : ClientCatch) : Prop :=
  updated.id = old.id ∧ updated.userId = old.userId ∧
  updated.userDisplayName = old.userDisplayName ∧
  updated.userPhotoURL = old.userPhotoURL ∧
  updated.imageUrl = old.imageUrl ∧
  updated.timestamp = old.timestamp ∧
  updated.catchDetails.date = old.catchDetails.date ∧
  updated.identification.confidence = old.identification.confidence ∧
  updated.identification.characteristics = old.identification.characteristics ∧
  updated.identification.habitat = old.identification.habitat ∧
  updated.identification.averageSize = old.identification.averageSize ∧
  updated.identification.notes = old.identification.notes ∧
  updated.identification.family = old.identification.family

/-- A store mutation is permitted when an update is a permitted edit of a
record owned by its actor, and a delete targets a record owned by its actor
(asset deletion carries no ownership information of its own). -/
def MutationPermitted : Mutation → Prop
  | .assetDelete _ _ _ => True
  | .docUpdate actor old updated => old.userId = some actor ∧ permittedEdit old updated
  | .docDelete actor c => c.userId = some actor

/-- What holds of every store mutation regardless of sign-in changes: an
update only performs a permitted partial edit (frame on all other fields),
and a delete targets a record owned by the acting user (the delete control is
re-rendered against the current user, unlike the save control). -/
def MutationFrame : Mutation → Prop
  | .assetDelete _ _ _ => True
  | .docUpdate _ old updated => permittedEdit old updated
  | .docDelete actor c => c.userId = some actor

/-- The selected catch, if any, agrees with the store document of the same
id. -/
def SelSync (s : ClientState) : Prop :=
  ∀ c, s.selectedCatch = some c → ∀ d ∈ s.docs, d.id = c.id → d = c

/-- In edit mode, the selected catch is owned by the signed-in user. -/
def EditOwn (s : ClientState) : Prop :=
  s.isEditing = true →
    ∃ u c, s.user = some u ∧ s.selectedCatch = some c ∧ c.userId = some u

/-- Document ids in the store are distinct (Firestore assigns unique ids). -/
def IdsNodup (s : ClientState) : Prop := (s.docs.map (fun d => d.id)).Nodup

/-- Invariant preserved by every client step that does not change the
signed-in user. -/
def ClientInv (s : ClientState) : Prop := IdsNodup s ∧ SelSync s ∧ EditOwn s

/-- Invariant preserved by every client step, sign-out and sign-in
included (auth events touch neither the store nor the selection). -/
def ClientFrameInv (s : ClientState) : Prop := IdsNodup s ∧ SelSync s

/-- Example environment for the mcp-server variant: the asset exists and the
model answers with prose containing no JSON at all. -/
def c1EnvEx : PipelineEnv :=
  { download := some [], fileExists := true, authUser := none,
    modelText := some "I cannot identify this fish.".data }

/-- Example tool arguments for the mcp-server variant. -/
def c1ArgsEx : McpArgs :=
  { imageUrl := "catches/u1/1_fish.jpg",
    imageDownloadUrl := "https://example.com/fish.jpg", userId := "u1",
    catchDetails := some (Json.obj []) }

/-- Example environment whose model text is prose, for exercising the failing
parse of the fence-strip variant. -/
def c1EnvBadEx : PipelineEnv :=
  { download := some [7], fileExists := true, authUser := none,
    modelText := some "not json".data }

/-- Example request with both required fields present. -/
def c1ReqEx : Request :=
  { method := "POST", imageUrl := some "catches/u1/1_fish.jpg",
    imageDownloadUrl := "https://example.com/fish.jpg", userId := some "u1",
    catchDetails := Json.obj [] }

/-- Example identification object of a stored catch. -/
def c2Ident : Identification :=
  { commonName := "Largemouth Bass", scientificName := "Micropterus salmoides",
    confidence := "high", characteristics := ["dark lateral stripe"],
    habitat := "warm lakes", averageSize := "12-24 in", notes := "",
    family := some "Centrarchidae" }

/-- Example stored catch owned by user `u1`. -/
def c2CatchEx : ClientCatch :=
  { id := "rec1", userId := some "u1", userDisplayName := some "Ann",
    userPhotoURL := none, imageUrl := "https://example.com/a.jpg",
    identification := c2Ident,
    catchDetails := { location := none, method := none, date := none, notes := none },
    timestamp := 5 }

/-- Example client state: `u1` signed in, one owned record in the store. -/
def c2InitEx : ClientState :=
  { user := some "u1", docs := [c2CatchEx], assets := ["https://example.com/a.jpg"],
    selectedCatch := none, isEditing := false, editedDetails := emptyEdited }

/-- Event sequence in which `u1` opens the edit form on their record, the
signed-in user then changes to `u2`, and `u2` saves. -/
def c2EvsEx : List ClientEvent :=
  [.select c2CatchEx, .clickEdit, .setLocation "pier 9", .signOut, .signIn "u2", .save]

/-- Event sequence of an ordinary owner edit (no auth events). -/
def c2wEvs : List ClientEvent :=
  [.select c2CatchEx, .clickEdit, .setLocation "dock", .save]

/-- Example request with userId absent. -/
def c3ReqEx : Request :=
  { method := "POST", imageUrl := some "catches/u1/1_fish.jpg",
    imageDownloadUrl := "https://example.com/f.jpg", userId := none,
    catchDetails := Json.obj [] }

/-- Example environment (irrelevant to the 400 path). -/
def c3EnvEx : PipelineEnv :=
  { download := some [1], fileExists := true, authUser := none,
    modelText := some ['x'] }

/-- Example environment whose model text is the bare empty JSON object. -/
def c5EnvEx : PipelineEnv :=
  { download := some [1, 2], fileExists := true, authUser := none,
    modelText := some [lbrace, rbrace] }

/-- Example caller-supplied catch details. -/
def c5Details : Json := Json.obj [(['a'], Json.num ['1'])]

/-- Example valid request carrying `c5Details`. -/
def c5ReqEx : Request :=
  { method := "POST", imageUrl := some "k.jpg",
    imageDownloadUrl := "https://example.com/x.jpg", userId := some "u1",
    catchDetails := c5Details }

/-- Example valid tool arguments carrying `c5Details`. -/
def c5ArgsEx : McpArgs :=
  { imageUrl := "k.jpg", imageDownloadUrl := "https://example.com/x.jpg",
    userId := "u1", catchDetails := some c5Details }

/-- Example state for deletion: `u1` has the record open, and the backing
asset is already missing from storage. -/
def c8StateEx : ClientState :=
  { user := some "u1", docs := [c2CatchEx], assets := [],
    selectedCatch := some c2CatchEx, isEditing := false,
    editedDetails := emptyEdited }

/-- Identity lookup that always succeeds with the profile `Bob`. -/
def c10AuthEx : String → Option AuthProfile :=
  fun _ => some { displayName := some "Bob", photoURL := none }

/-- Backfill document whose `userDisplayName` exists but is the empty
string. -/
def c10DocEx : BFDoc :=
  { userId := some "u1", userDisplayName := some "", userPhotoURL := none,
    rest := Json.null }

/-- Backfill document with a genuine display name. -/
def c10DocGoodEx : BFDoc :=
  { userId := some "u1", userDisplayName := some "Carol", userPhotoURL := none,
    rest := Json.null }

/-- Document the plain functions variant writes for `c5EnvEx`/`c5ReqEx`. -/
def c5DocPlain : DocPlain :=
  { userId := some "u1", imageUrl := "https://example.com/x.jpg",
    identification := Json.obj [], catchDetails := c5Details,
    timestamp := .sentinel }

/-- Document the mcp-server handler writes for `c5EnvEx`/`c5ArgsEx`. -/
def c5DocMcp : DocMcp :=
  { userId := "u1", imageUrl := "https://example.com/x.jpg",
    identification := Json.obj [], catchDetails := c5Details,
    timestamp := .sentinel }

/-- Example valid request for the enriched variant. -/
def c9ReqEx : Request :=
  { method := "POST", imageUrl := some "k.jpg",
    imageDownloadUrl := "https://example.com/x.jpg", userId := some "u1",
    catchDetails := Json.obj [] }

/-- Example environment in which the identity lookup fails and everything
else succeeds. -/
def c9EnvEx : PipelineEnv :=
  { download := some [3], fileExists := true, authUser := none,
    modelText := some [lbrace, rbrace] }

/-- The middle of the brace-delimited example payload. -/
def c7Mid : List Char := [dquote, 'a', dquote, ':', '1']

/-- The example JSON payload of the specification (`a` mapped to 1). -/
def c7Payload : List Char := lbrace :: (c7Mid ++ [rbrace])

/-- Result of the ordinary owner-edit run, used to instantiate the C2
theorem. -/
def c2wOut : ClientState × List Mutation :=
  (clientRun c2InitEx c2wEvs).getD (c2InitEx, [])

/-- Result of the sign-out/sign-in run, used to instantiate the
unconditional part of the C2 theorem. -/
def c2xOut : ClientState × List Mutation :=
  (clientRun c2InitEx c2EvsEx).getD (c2InitEx, [])

theorem shrink_core (long short : Nat) (hls : short ≤ long) (hl : 1568 < long) :
    roundDiv (short * 1568) long ≤ 1568 ∧
    roundDiv (short * 1568) long ≤ short ∧
    2 * (1568 * short) ≤ 2 * (roundDiv (short * 1568) long * long) + long ∧
    2 * (roundDiv (short * 1568) long * long) ≤ 2 * (1568 * short) + long := by
  have hB : 0 < 2 * long := by omega
  have hdm := Nat.div_add_mod (2 * (short * 1568) + long) (2 * long)
  have hmod := Nat.mod_lt (2 * (short * 1568) + long) hB
  have hqdef : roundDiv (short * 1568) long =
      (2 * (short * 1568) + long) / (2 * long) := rfl
  rw [← hqdef] at hdm
  set q := roundDiv (short * 1568) long with hqs
  set r := (2 * (short * 1568) + long) % (2 * long) with hrs
  clear_value q r
  have e1 : 2 * long * q = 2 * (long * q) := by ring
  rw [e1] at hdm
  refine ⟨?_, ?_, ?_, ?_⟩
  · by_contra hc
    push_neg at hc
    have h2 : long * 1569 ≤ long * q := Nat.mul_le_mul_left long hc
    have h3 : 1568 * short ≤ 1568 * long := Nat.mul_le_mul_left 1568 hls
    generalize hk : long * q = k at hdm h2
    omega
  · by_contra hc
    push_neg at hc
    have h2 : long * (short + 1) ≤ long * q := Nat.mul_le_mul_left long hc
    have h3 : 1569 * short ≤ long * short := Nat.mul_le_mul_right short (by omega)
    rw [Nat.mul_succ] at h2
    rw [show long * short = short * long from Nat.mul_comm long short] at h2 h3
    generalize hk : long * q = k at hdm h2
    generalize hm2 : short * long = m at h2 h3
    omega
  · rw [Nat.mul_comm q long]
    generalize hk : long * q = k at hdm ⊢
    omega
  · rw [Nat.mul_comm q long]
    generalize hk : long * q = k at hdm ⊢
    omega

theorem shrinkDims_of_le (w h : Nat) (h1 : w ≤ 1568) (h2 : h ≤ 1568) :
    shrinkDims w h = (w, h) := by
  simp [shrinkDims, h1, h2]

theorem shrinkDims_spec (w h : Nat) :
    ((shrinkDims w h).1 ≤ 1568 ∧ (shrinkDims w h).2 ≤ 1568) ∧
    ((shrinkDims w h).1 ≤ w ∧ (shrinkDims w h).2 ≤ h) ∧
    (2 * ((shrinkDims w h).1 * h) ≤ 2 * ((shrinkDims w h).2 * w) + max w h ∧
     2 * ((shrinkDims w h).2 * w) ≤ 2 * ((shrinkDims w h).1 * h) + max w h) := by
  unfold shrinkDims
  split
  · rename_i hwh
    refine ⟨⟨hwh.1, hwh.2⟩, ⟨le_refl _, le_refl _⟩, ?_, ?_⟩ <;>
      simp [Nat.mul_comm w h]
  · rename_i hwh
    split
    · rename_i hhw
      have hw : 1568 < w := by
        rcases Nat.lt_or_ge 1568 w with h' | h'
        · exact h'
        · exact absurd ⟨h', le_trans hhw h'⟩ hwh
      obtain ⟨hb, hup, hc1, hc2⟩ := shrink_core w h hhw hw
      have hmax : max w h = w := Nat.max_eq_left hhw
      rw [hmax]
      exact ⟨⟨by omega, hb⟩, ⟨by omega, hup⟩, by simpa using hc1, by simpa using hc2⟩
    · rename_i hhw
      push_neg at hhw
      have hh : 1568 < h := by
        rcases Nat.lt_or_ge 1568 h with h' | h'
        · exact h'
        · exact absurd ⟨le_trans (le_of_lt hhw) h', h'⟩ hwh
      obtain ⟨hb, hup, hc1, hc2⟩ := shrink_core h w (le_of_lt hhw) hh
      have hmax : max w h = h := Nat.max_eq_right (le_of_lt hhw)
      rw [hmax]
      refine ⟨⟨hb, by omega⟩, ⟨hup, by omega⟩, ?_, ?_⟩
      · simpa [Nat.mul_comm] using hc2
      · simpa [Nat.mul_comm] using hc1

/-- C4: the downscaler keeps the longer output edge at or below 1568 pixels,
never upscales either edge, is idempotent (its output is a fixed point), and
preserves the aspect ratio up to the half-pixel error of rounding each edge
to an integer, stated as the two-sided cross-product bound
`2 |out_w * h - out_h * w| <= max w h`. -/
theorem c4_shrink_dims (w h : Nat) :
    max (shrinkDims w h).1 (shrinkDims w h).2 ≤ 1568 ∧
    (shrinkDims w h).1 ≤ w ∧ (shrinkDims w h).2 ≤ h ∧
    shrinkDims (shrinkDims w h).1 (shrinkDims w h).2 = shrinkDims w h ∧
    2 * ((shrinkDims w h).1 * h) ≤ 2 * ((shrinkDims w h).2 * w) + max w h ∧
    2 * ((shrinkDims w h).2 * w) ≤ 2 * ((shrinkDims w h).1 * h) + max w h := by
  obtain ⟨⟨b1, b2⟩, ⟨u1, u2⟩, c1, c2⟩ := shrinkDims_spec w h
  refine ⟨max_le b1 b2, u1, u2, ?_, c1, c2⟩
  rw [shrinkDims_of_le _ _ b1 b2]

theorem strOr_empty (s : String) : strOr s "" = s := by
  unfold strOr
  split
  · rename_i h
    exact h.symm
  · rfl

/-- C6: an edit form initialised from the record in which only the location
field is changed leaves the identification object and the timestamp of the
stored record unchanged: the other four written field paths receive their
current values back, and `handleSaveEdit` writes no other field. -/
theorem c6_location_edit_frame (c : ClientCatch) (v : String) :
    (applyEditUpdate { initEdited c with location := v } c).identification =
      c.identification ∧
    (applyEditUpdate { initEdited c with location := v } c).timestamp = c.timestamp := by
  constructor
  · simp [applyEditUpdate, initEdited, strOr_empty]
  · rfl

theorem fenceGo_cons_ne (c : Char) (t : List Char) (hc : ¬ c = bquote) :
    fenceGo (c :: t) 0 = c :: fenceGo t 0 := by
  simp [fenceGo, hc]

theorem fenceGo_close (s : List Char) (hb : ¬ bquote ∈ s) :
    fenceGo (s ++ ('\n' :: [bquote, bquote, bquote])) 0 = s ++ ['\n'] := by
  induction s with
  | nil => rfl
  | cons c s ih =>
    have hc : ¬ c = bquote := fun h => hb (by simp [h])
    have hbs : ¬ bquote ∈ s := fun h => hb (by simp [h])
    rw [List.cons_append, fenceGo_cons_ne c _ hc, ih hbs]
    rfl

theorem fenceStrip_wrap (s : List Char) (hb : ¬ bquote ∈ s) :
    fenceStrip ([bquote, bquote, bquote, 'j', 's', 'o', 'n', '\n'] ++ s ++
      ('\n' :: [bquote, bquote, bquote])) = s ++ ['\n'] := by
  have hopen : ∀ t : List Char,
      fenceGo ([bquote, bquote, bquote, 'j', 's', 'o', 'n', '\n'] ++ t) 0 = fenceGo t 0 :=
    fun t => rfl
  unfold fenceStrip
  rw [List.append_assoc, hopen, fenceGo_close s hb]

theorem jsTrim_append_nl (s : List Char) : jsTrim (s ++ ['\n']) = jsTrim s := by
  unfold jsTrim
  rw [List.reverse_append]
  rfl

theorem dropWhile_not_lbrace (p : List Char) (hp : ¬ lbrace ∈ p) (t : List Char) :
    (p ++ (lbrace :: t)).dropWhile (fun c => !(c = lbrace : Bool)) = lbrace :: t := by
  induction p with
  | nil => simp [List.dropWhile]
  | cons c p ih =>
    have hc : ¬ c = lbrace := fun h => hp (by simp [h])
    have hps : ¬ lbrace ∈ p := fun h => hp (by simp [h])
    rw [List.cons_append, List.dropWhile_cons]
    simp only [hc]
    simpa using ih hps

theorem extractBrace_prose (p mid : List Char) (hp : ¬ lbrace ∈ p) :
    extractBrace (p ++ (lbrace :: (mid ++ [rbrace]))) =
      some (lbrace :: (mid ++ [rbrace])) := by
  unfold extractBrace
  rw [dropWhile_not_lbrace p hp]
  simp [List.dropWhile]

/-- C7: the fence-strip parser of the functions variant maps a fenced JSON
payload to the enclosed value (for any payload free of backticks and already
trimmed), and the brace-extraction parser of the mcp-server variant maps any
brace-delimited JSON payload preceded by brace-free prose to the enclosed
value. -/
theorem c7_parsers :
    (∀ (s : List Char) (v : Json), ¬ bquote ∈ s → jsTrim s = s → jsonParse s = some v →
      parseVariantA ([bquote, bquote, bquote, 'j', 's', 'o', 'n', '\n'] ++ s ++
        ('\n' :: [bquote, bquote, bquote])) = some v) ∧
    (∀ (p mid : List Char) (v : Json), ¬ lbrace ∈ p →
      jsonParse (lbrace :: (mid ++ [rbrace])) = some v →
      parseVariantB (p ++ (lbrace :: (mid ++ [rbrace]))) = some v) := by
  constructor
  · intro s v hb ht hv
    unfold parseVariantA
    rw [fenceStrip_wrap s hb, jsTrim_append_nl, ht, hv]
  · intro p mid v hp hv
    unfold parseVariantB
    rw [extractBrace_prose p mid hp]
    exact hv

/-- C7 witness: the concrete example of the specification, a fenced
single-field object and the same object after leading prose. -/
theorem c7_witness :
    parseVariantA ([bquote, bquote, bquote, 'j', 's', 'o', 'n', '\n'] ++ c7Payload ++
        ('\n' :: [bquote, bquote, bquote])) =
      some (Json.obj [(['a'], Json.num ['1'])]) ∧
    parseVariantB ("Sure, here: ".data ++ c7Payload) =
      some (Json.obj [(['a'], Json.num ['1'])]) :=
  ⟨c7_parsers.1 c7Payload _ (by decide) (by decide) rfl,
   c7_parsers.2 "Sure, here: ".data c7Mid _ (by decide) rfl⟩

/-- C3: a POST identify request missing the image key or the userId yields
the fixed 400 response in both functions variants, with no external call
attempted and no record written. -/
theorem c3_missing_field_rejected :
    ∀ (env : PipelineEnv) (req : Request),
      req.method = "POST" →
      req.imageUrl = none ∨ req.userId = none →
      identifyFish env req = (.clientError "Missing required fields", [], none) ∧
      identifyFishEnriched env req = (.clientError "Missing required fields", [], none) := by
  intro env req hm h
  have ht : (truthy req.imageUrl && truthy req.userId) = false := by
    rcases h with h | h <;> simp [truthy, h]
  constructor <;> simp [identifyFish, identifyFishEnriched, hm, ht]

/-- C3 witness: a concrete POST request with userId absent. -/
theorem c3_witness :
    identifyFish c3EnvEx c3ReqEx = (.clientError "Missing required fields", [], none) ∧
    identifyFishEnriched c3EnvEx c3ReqEx =
      (.clientError "Missing required fields", [], none) :=
  c3_missing_field_rejected c3EnvEx c3ReqEx rfl (Or.inr rfl)

/-- C5: whenever a record is written, its catchDetails field equals exactly
the caller-supplied object: the functions variant stores it verbatim, and the
mcp-server variant's `|| RB LB` fallback is the identity on objects, which
are always truthy. -/
theorem c5_catch_details_exact :
    (∀ (env : PipelineEnv) (req : Request) (doc : DocPlain),
      (identifyFish env req).2.2 = some doc → doc.catchDetails = req.catchDetails) ∧
    (∀ (env : PipelineEnv) (args : McpArgs) (fs : List (List Char × Json)) (doc : DocMcp),
      args.catchDetails = some (Json.obj fs) →
      (identify_fish env args).2.2 = some doc → doc.catchDetails = Json.obj fs) := by
  constructor
  · intro env req doc h
    unfold identifyFish at h
    iterate 6 (all_goals (try split at h))
    all_goals (first | exact Option.noConfusion h | exact (Option.some.inj h ▸ rfl))
  · intro env args fs doc hcd h
    unfold identify_fish at h
    rw [hcd, show mcpCatchDetails (some (Json.obj fs)) = Json.obj fs from rfl] at h
    iterate 6 (all_goals (try split at h))
    all_goals (first | exact Option.noConfusion h | exact (Option.some.inj h ▸ rfl))

/-- C5 witness: a concrete accepted request in each variant, with the
persisted catchDetails equal to the supplied object. -/
theorem c5_witness :
    c5DocPlain.catchDetails = c5ReqEx.catchDetails ∧
    c5DocMcp.catchDetails = Json.obj [(['a'], Json.num ['1'])] :=
  ⟨c5_catch_details_exact.1 c5EnvEx c5ReqEx c5DocPlain rfl,
   c5_catch_details_exact.2 c5EnvEx c5ArgsEx [(['a'], Json.num ['1'])] c5DocMcp rfl rfl⟩

/-- C9: in the enriched variant, a failed identity lookup does not abort the
request: with every other step succeeding, the record is still written, with
the default display name `Anonymous` and a null photo in place of the profile
snapshot. -/
theorem c9_auth_failure_nonfatal :
    ∀ (env : PipelineEnv) (req : Request) (t : List Char) (idn : Json) (bs : List Nat),
      req.method = "POST" → truthy req.imageUrl = true → truthy req.userId = true →
      env.authUser = none → env.download = some bs → env.modelText = some t →
      parseVariantA t = some idn →
      identifyFishEnriched env req =
        (.ok idn req.catchDetails, [.authGetUser, .download, .modelInvoke],
          some { userId := req.userId, userDisplayName := "Anonymous", userPhotoURL := none,
                 imageUrl := req.imageDownloadUrl, identification := idn,
                 catchDetails := req.catchDetails, timestamp := .sentinel }) := by
  intro env req t idn bs hm h1 h2 hauth hdl hmt hp
  simp [identifyFishEnriched, hm, h1, h2, hauth, hdl, hmt, hp, strOr]

/-- C9 witness: a concrete run with the identity lookup failing. -/
theorem c9_witness :
    identifyFishEnriched c9EnvEx c9ReqEx =
      (.ok (Json.obj []) c9ReqEx.catchDetails, [.authGetUser, .download, .modelInvoke],
        some { userId := c9ReqEx.userId, userDisplayName := "Anonymous",
               userPhotoURL := none, imageUrl := c9ReqEx.imageDownloadUrl,
               identification := Json.obj [], catchDetails := c9ReqEx.catchDetails,
               timestamp := .sentinel }) :=
  c9_auth_failure_nonfatal c9EnvEx c9ReqEx [lbrace, rbrace] (Json.obj []) [3]
    rfl rfl rfl rfl rfl rfl rfl

/-- C1 counterexample: the claim states that neither variant lets a request
with malformed model output silently succeed and persist a record.  In the
brace-extraction variant, prose with no brace span is not valid JSON and
contains no JSON object, yet the `|| RB LB` fallback makes the parse succeed
with the empty object and the request persists a record. -/
theorem c1_counterexample :
    jsonParse "I cannot identify this fish.".data = none ∧
    extractBrace "I cannot identify this fish.".data = none ∧
    identify_fish c1EnvEx c1ArgsEx =
      (.ok (Json.obj []), [.fileExistsCheck, .signUrl, .modelInvoke],
        some { userId := "u1", imageUrl := "https://example.com/fish.jpg",
               identification := Json.obj [], catchDetails := Json.obj [],
               timestamp := .sentinel }) :=
  ⟨rfl, rfl, rfl⟩

/-- C1 (amended): in the fence-strip variant any model text whose cleaned
form is not valid JSON fails the whole request with the generic failure and
persists nothing (both with and without enrichment); in the brace-extraction
variant an extracted span that is not valid JSON likewise fails the request,
but a text containing no brace-delimited span does not fail: the parser falls
back to the literal empty object and the request succeeds, persisting a
record whose identification is the empty object. -/
theorem c1_parse_failure :
    (∀ (env : PipelineEnv) (req : Request) (bs : List Nat) (t : List Char),
      req.method = "POST" → truthy req.imageUrl = true → truthy req.userId = true →
      env.download = some bs → env.modelText = some t → parseVariantA t = none →
      identifyFish env req = (.serverError, [.download, .modelInvoke], none)) ∧
    (∀ (env : PipelineEnv) (req : Request) (bs : List Nat) (t : List Char),
      req.method = "POST" → truthy req.imageUrl = true → truthy req.userId = true →
      env.download = some bs → env.modelText = some t → parseVariantA t = none →
      identifyFishEnriched env req =
        (.serverError, [.authGetUser, .download, .modelInvoke], none)) ∧
    (∀ (env : PipelineEnv) (args : McpArgs) (t sp : List Char),
      env.fileExists = true → env.modelText = some t →
      extractBrace t = some sp → jsonParse sp = none →
      identify_fish env args =
        (.error, [.fileExistsCheck, .signUrl, .modelInvoke], none)) ∧
    (∀ (env : PipelineEnv) (args : McpArgs) (t : List Char),
      env.fileExists = true → env.modelText = some t → extractBrace t = none →
      identify_fish env args =
        (.ok (Json.obj []), [.fileExistsCheck, .signUrl, .modelInvoke],
          some { userId := args.userId, imageUrl := args.imageDownloadUrl,
                 identification := Json.obj [],
                 catchDetails := mcpCatchDetails args.catchDetails,
                 timestamp := .sentinel })) := by
  refine ⟨?_, ?_, ?_, ?_⟩
  · intro env req bs t hm h1 h2 hdl hmt hp
    simp [identifyFish, hm, h1, h2, hdl, hmt, hp]
  · intro env req bs t hm h1 h2 hdl hmt hp
    simp [identifyFishEnriched, hm, h1, h2, hdl, hmt, hp]
  · intro env args t sp hf hmt hx hp
    simp [identify_fish, hf, hmt, parseVariantB, hx, hp]
  · intro env args t hf hmt hx
    have hb : parseVariantB t = some (Json.obj []) := by
      simp [parseVariantB, hx]
      rfl
    simp [identify_fish, hf, hmt, hb]

/-- C1 witness: a fence-variant request failing on unparsable prose, and a
brace-variant request silently succeeding on the same kind of prose. -/
theorem c1_witness :
    identifyFish c1EnvBadEx c1ReqEx = (.serverError, [.download, .modelInvoke], none) ∧
    identify_fish c1EnvEx c1ArgsEx =
      (.ok (Json.obj []), [.fileExistsCheck, .signUrl, .modelInvoke],
        some { userId := c1ArgsEx.userId, imageUrl := c1ArgsEx.imageDownloadUrl,
               identification := Json.obj [],
               catchDetails := mcpCatchDetails c1ArgsEx.catchDetails,
               timestamp := .sentinel }) :=
  ⟨c1_parse_failure.1 c1EnvBadEx c1ReqEx [7] "not json".data rfl rfl rfl rfl rfl rfl,
   c1_parse_failure.2.2.2 c1EnvEx c1ArgsEx "I cannot identify this fish.".data
     rfl rfl rfl⟩

/-- C10 counterexample: the claim says a record whose userDisplayName already
exists and is not the default is left entirely unchanged.  A record whose
userDisplayName exists but is the empty string is falsy in the skip check, so
the sweep still rewrites it when the identity lookup succeeds. -/
theorem c10_counterexample :
    (backfillStep c10AuthEx c10DocEx).userDisplayName = some "Bob" ∧
    (c10DocEx.userDisplayName).isSome = true ∧
    ¬ c10DocEx.userDisplayName = some "Anonymous" :=
  ⟨rfl, rfl, by decide⟩

/-- C10 (amended): a record whose userDisplayName exists as a non-empty
string different from `Anonymous` is left entirely unchanged by the backfill,
a record with no userId is left unchanged, and a processed record never has
any field other than userDisplayName and userPhotoURL modified. -/
theorem c10_backfill_frame :
    (∀ (auth : String → Option AuthProfile) (d : BFDoc) (s : String),
      d.userDisplayName = some s → ¬ s = "" → ¬ s = "Anonymous" →
      backfillStep auth d = d) ∧
    (∀ (auth : String → Option AuthProfile) (d : BFDoc),
      d.userId = none → backfillStep auth d = d) ∧
    (∀ (auth : String → Option AuthProfile) (d : BFDoc),
      (backfillStep auth d).userId = d.userId ∧ (backfillStep auth d).rest = d.rest) := by
  refine ⟨?_, ?_, ?_⟩
  · intro auth d s hd hs1 hs2
    simp [backfillStep, truthy, hd, hs1, hs2]
  · intro auth d hu
    simp [backfillStep, hu]
  · intro auth d
    unfold backfillStep
    iterate 4 (all_goals (try split))
    all_goals simp_all

/-- C10 witness: a record with a genuine display name is untouched. -/
theorem c10_witness :
    backfillStep c10AuthEx c10DocGoodEx = c10DocGoodEx :=
  c10_backfill_frame.1 c10AuthEx c10DocGoodEx "Carol" rfl (by decide) (by decide)

theorem permittedEdit_apply (e : EditedDetails) (d : ClientCatch) :
    permittedEdit d (applyEditUpdate e d) :=
  ⟨rfl, rfl, rfl, rfl, rfl, rfl, rfl, rfl, rfl, rfl, rfl, rfl, rfl⟩

theorem isOwnCatch_userId (u : String) (c : ClientCatch)
    (h : isOwnCatch (some u) c = true) : c.userId = some u := by
  simpa [isOwnCatch] using h

theorem step_sound (s : ClientState) (e : ClientEvent) (s' : ClientState)
    (ms : List Mutation) (hinv : ClientInv s) (hauth : isAuthEvent e = false)
    (hstep : step s e = some (s', ms)) :
    ClientInv s' ∧ ∀ m ∈ ms, MutationPermitted m := by
  obtain ⟨hnd, hsync, hedit⟩ := hinv
  cases e with
  | select c =>
    simp only [step] at hstep
    split at hstep
    next u hu =>
      split at hstep
      next hmem =>
        simp only [Option.some.injEq, Prod.mk.injEq] at hstep
        obtain ⟨hs', hms⟩ := hstep
        subst hs'; subst hms
        refine ⟨⟨hnd, ?_, ?_⟩, by simp⟩
        · intro c' hc' d hd hid
          simp only [Option.some.injEq] at hc'
          subst hc'
          exact List.inj_on_of_nodup_map hnd hd hmem hid
        · intro habs
          simp at habs
      next => exact absurd hstep (by simp)
    next => exact absurd hstep (by simp)
  | close =>
    simp only [step] at hstep
    split at hstep
    next u c hu hc =>
      simp only [Option.some.injEq, Prod.mk.injEq] at hstep
      obtain ⟨hs', hms⟩ := hstep
      subst hs'; subst hms
      refine ⟨⟨hnd, ?_, ?_⟩, by simp⟩
      · intro c' hc'
        simp at hc'
      · intro habs
        simp at habs
    next => exact absurd hstep (by simp)
  | clickEdit =>
    simp only [step] at hstep
    split at hstep
    next u c hu hc =>
      split at hstep
      next hg =>
        simp only [Bool.and_eq_true, Bool.not_eq_true'] at hg
        simp only [Option.some.injEq, Prod.mk.injEq] at hstep
        obtain ⟨hs', hms⟩ := hstep
        subst hs'; subst hms
        refine ⟨⟨hnd, ?_, ?_⟩, by simp⟩
        · intro c' hc' d hd hid
          simp only [hc, Option.some.injEq] at hc'
          subst hc'
          exact hsync c hc d hd hid
        · intro _
          exact ⟨u, c, hu, hc, isOwnCatch_userId u c (by rw [← hu]; exact hg.2)⟩
      next => exact absurd hstep (by simp)
    next => exact absurd hstep (by simp)
  | setLocation v =>
    simp only [step, editField] at hstep
    split at hstep
    next u c hu hc =>
      split at hstep
      next hEd =>
        simp only [Option.some.injEq, Prod.mk.injEq] at hstep
        obtain ⟨hs', hms⟩ := hstep
        subst hs'; subst hms
        refine ⟨⟨hnd, ?_, ?_⟩, by simp⟩
        · intro c' hc' d hd hid
          simp only [hc, Option.some.injEq] at hc'
          subst hc'
          exact hsync c hc d hd hid
        · intro _
          exact hedit hEd
      next => exact absurd hstep (by simp)
    next => exact absurd hstep (by simp)
  | setMethod v =>
    simp only [step, editField] at hstep
    split at hstep
    next u c hu hc =>
      split at hstep
      next hEd =>
        simp only [Option.some.injEq, Prod.mk.injEq] at hstep
        obtain ⟨hs', hms⟩ := hstep
        subst hs'; subst hms
        refine ⟨⟨hnd, ?_, ?_⟩, by simp⟩
        · intro c' hc' d hd hid
          simp only [hc, Option.some.injEq] at hc'
          subst hc'
          exact hsync c hc d hd hid
        · intro _
          exact hedit hEd
      next => exact absurd hstep (by simp)
    next => exact absurd hstep (by simp)
  | setNotes v =>
    simp only [step, editField] at hstep
    split at hstep
    next u c hu hc =>
      split at hstep
      next hEd =>
        simp only [Option.some.injEq, Prod.mk.injEq] at hstep
        obtain ⟨hs', hms⟩ := hstep
        subst hs'; subst hms
        refine ⟨⟨hnd, ?_, ?_⟩, by simp⟩
        · intro c' hc' d hd hid
          simp only [hc, Option.some.injEq] at hc'
          subst hc'
          exact hsync c hc d hd hid
        · intro _
          exact hedit hEd
      next => exact absurd hstep (by simp)
    next => exact absurd hstep (by simp)
  | setCommonName v =>
    simp only [step, editField] at hstep
    split at hstep
    next u c hu hc =>
      split at hstep
      next hEd =>
        simp only [Option.some.injEq, Prod.mk.injEq] at hstep
        obtain ⟨hs', hms⟩ := hstep
        subst hs'; subst hms
        refine ⟨⟨hnd, ?_, ?_⟩, by simp⟩
        · intro c' hc' d hd hid
          simp only [hc, Option.some.injEq] at hc'
          subst hc'
          exact hsync c hc d hd hid
        · intro _
          exact hedit hEd
      next => exact absurd hstep (by simp)
    next => exact absurd hstep (by simp)
  | setScientificName v =>
    simp only [step, editField] at hstep
    split at hstep
    next u c hu hc =>
      split at hstep
      next hEd =>
        simp only [Option.some.injEq, Prod.mk.injEq] at hstep
        obtain ⟨hs', hms⟩ := hstep
        subst hs'; subst hms
        refine ⟨⟨hnd, ?_, ?_⟩, by simp⟩
        · intro c' hc' d hd hid
          simp only [hc, Option.some.injEq] at hc'
          subst hc'
          exact hsync c hc d hd hid
        · intro _
          exact hedit hEd
      next => exact absurd hstep (by simp)
    next => exact absurd hstep (by simp)
  | save =>
    simp only [step] at hstep
    split at hstep
    next u c hu hc =>
      split at hstep
      next hEd =>
        obtain ⟨u0, c0, hu0, hc0, hown⟩ := hedit hEd
        rw [hu] at hu0
        rw [hc] at hc0
        simp only [Option.some.injEq] at hu0 hc0
        subst hu0; subst hc0
        split at hstep
        next hany =>
          simp only [Option.some.injEq, Prod.mk.injEq] at hstep
          obtain ⟨hs', hms⟩ := hstep
          subst hs'; subst hms
          refine ⟨⟨?_, ?_, ?_⟩, ?_⟩
          · show ((s.docs.map fun d =>
                if d.id = c.id then applyEditUpdate s.editedDetails d else d).map
                  fun d => d.id).Nodup
            rw [List.map_map]
            have hcomp : ((fun d : ClientCatch => d.id) ∘ fun d =>
                if d.id = c.id then applyEditUpdate s.editedDetails d else d) =
                fun d : ClientCatch => d.id := by
              funext d
              by_cases hdc : d.id = c.id <;> simp [Function.comp, hdc, applyEditUpdate]
            rw [hcomp]
            exact hnd
          · intro c' hc' d' hd' hid
            simp only [Option.some.injEq] at hc'
            subst hc'
            obtain ⟨d, hd, rfl⟩ := List.mem_map.1 hd'
            have hgid : ∀ x : ClientCatch,
                (if x.id = c.id then applyEditUpdate s.editedDetails x else x).id = x.id := by
              intro x
              by_cases hdc : x.id = c.id <;> simp [hdc, applyEditUpdate]
            have hdid : d.id = c.id := by
              have := hid
              rw [hgid d] at this
              rw [this]
              exact (hgid c).symm ▸ rfl
            have hdc2 : d = c := hsync c hc d hd hdid
            subst hdc2
            simp [hdid]
          · intro habs
            simp at habs
          · intro m hm
            obtain ⟨d, hd, hfd⟩ := List.mem_filterMap.1 hm
            split at hfd
            next hdid =>
              simp only [Option.some.injEq] at hfd
              subst hfd
              have hdc2 : d = c := hsync c hc d hd hdid
              subst hdc2
              exact ⟨hown, permittedEdit_apply _ _⟩
            next => exact absurd hfd (by simp)
        next =>
          simp only [Option.some.injEq, Prod.mk.injEq] at hstep
          obtain ⟨hs', hms⟩ := hstep
          subst hs'; subst hms
          exact ⟨⟨hnd, hsync, hedit⟩, by simp⟩
      next => exact absurd hstep (by simp)
    next => exact absurd hstep (by simp)
  | cancel =>
    simp only [step] at hstep
    split at hstep
    next u c hu hc =>
      split at hstep
      next hEd =>
        simp only [Option.some.injEq, Prod.mk.injEq] at hstep
        obtain ⟨hs', hms⟩ := hstep
        subst hs'; subst hms
        refine ⟨⟨hnd, ?_, ?_⟩, by simp⟩
        · intro c' hc' d hd hid
          simp only [hc, Option.some.injEq] at hc'
          subst hc'
          exact hsync c hc d hd hid
        · intro habs
          simp at habs
      next => exact absurd hstep (by simp)
    next => exact absurd hstep (by simp)
  | deleteConfirm =>
    simp only [step] at hstep
    split at hstep
    next u c hu hc =>
      split at hstep
      next hg =>
        simp only [Bool.and_eq_true, Bool.not_eq_true'] at hg
        have hown : c.userId = some u := isOwnCatch_userId u c (by rw [← hu]; exact hg.2)
        simp only [Option.some.injEq, Prod.mk.injEq] at hstep
        obtain ⟨hs', hms⟩ := hstep
        subst hs'; subst hms
        refine ⟨⟨?_, ?_, ?_⟩, ?_⟩
        · show ((s.docs.filter fun d => !(d.id = c.id : Bool)).map
              fun d => d.id).Nodup
          exact hnd.sublist ((List.filter_sublist _).map _)
        · intro c' hc'
          simp at hc'
        · intro habs
          simp at habs
        · intro m hm
          simp only [List.mem_cons] at hm
          rcases hm with hm | hm
          · subst hm
            trivial
          · obtain ⟨d, hd, hfd⟩ := List.mem_filterMap.1 hm
            split at hfd
            next hdid =>
              simp only [Option.some.injEq] at hfd
              subst hfd
              have hdc2 : d = c := hsync c hc d hd hdid
              subst hdc2
              exact hown
            next => exact absurd hfd (by simp)
      next => exact absurd hstep (by simp)
    next => exact absurd hstep (by simp)
  | deleteAbort =>
    simp only [step] at hstep
    split at hstep
    next u c hu hc =>
      split at hstep
      next hg =>
        simp only [Option.some.injEq, Prod.mk.injEq] at hstep
        obtain ⟨hs', hms⟩ := hstep
        subst hs'; subst hms
        exact ⟨⟨hnd, hsync, hedit⟩, by simp⟩
      next => exact absurd hstep (by simp)
    next => exact absurd hstep (by simp)
  | signOut => simp [isAuthEvent] at hauth
  | signIn u => simp [isAuthEvent] at hauth

theorem clientRun_sound (evs : List ClientEvent) :
    ∀ (s s' : ClientState) (ms : List Mutation), ClientInv s →
      (∀ e ∈ evs, isAuthEvent e = false) →
      clientRun s evs = some (s', ms) →
      ∀ m ∈ ms, MutationPermitted m := by
  induction evs with
  | nil =>
    intro s s' ms _ _ hrun
    simp only [clientRun, Option.some.injEq, Prod.mk.injEq] at hrun
    obtain ⟨_, hms⟩ := hrun
    subst hms
    simp
  | cons e es ih =>
    intro s s' ms hinv hae hrun
    simp only [clientRun] at hrun
    cases hst : step s e with
    | none => rw [hst] at hrun; exact absurd hrun (by simp)
    | some p =>
      obtain ⟨ps, pms⟩ := p
      rw [hst] at hrun
      simp only [] at hrun
      obtain ⟨hinv', hperm⟩ := step_sound s e ps pms hinv (hae e (by simp)) hst
      cases hr : clientRun ps es with
      | none => rw [hr] at hrun; exact absurd hrun (by simp)
      | some q =>
        obtain ⟨qs, qms⟩ := q
        rw [hr] at hrun
        simp only [Option.some.injEq, Prod.mk.injEq] at hrun
        obtain ⟨hs', hms⟩ := hrun
        subst hms
        intro m hm
        rcases List.mem_append.1 hm with hm | hm
        · exact hperm m hm
        · exact ih ps qs qms hinv' (fun e' he' => hae e' (by simp [he'])) hr m hm

theorem step_frame (s : ClientState) (e : ClientEvent) (s' : ClientState)
    (ms : List Mutation) (hinv : ClientFrameInv s)
    (hstep : step s e = some (s', ms)) :
    ClientFrameInv s' ∧ ∀ m ∈ ms, MutationFrame m := by
  obtain ⟨hnd, hsync⟩ := hinv
  cases e with
  | select c =>
    simp only [step] at hstep
    split at hstep
    next u hu =>
      split at hstep
      next hmem =>
        simp only [Option.some.injEq, Prod.mk.injEq] at hstep
        obtain ⟨hs', hms⟩ := hstep
        subst hs'; subst hms
        refine ⟨⟨hnd, ?_⟩, by simp⟩
        intro c' hc' d hd hid
        simp only [Option.some.injEq] at hc'
        subst hc'
        exact List.inj_on_of_nodup_map hnd hd hmem hid
      next => exact absurd hstep (by simp)
    next => exact absurd hstep (by simp)
  | close =>
    simp only [step] at hstep
    split at hstep
    next u c hu hc =>
      simp only [Option.some.injEq, Prod.mk.injEq] at hstep
      obtain ⟨hs', hms⟩ := hstep
      subst hs'; subst hms
      refine ⟨⟨hnd, ?_⟩, by simp⟩
      intro c' hc'
      simp at hc'
    next => exact absurd hstep (by simp)
  | clickEdit =>
    simp only [step] at hstep
    split at hstep
    next u c hu hc =>
      split at hstep
      next hg =>
        simp only [Option.some.injEq, Prod.mk.injEq] at hstep
        obtain ⟨hs', hms⟩ := hstep
        subst hs'; subst hms
        refine ⟨⟨hnd, ?_⟩, by simp⟩
        intro c' hc' d hd hid
        simp only [hc, Option.some.injEq] at hc'
        subst hc'
        exact hsync c hc d hd hid
      next => exact absurd hstep (by simp)
    next => exact absurd hstep (by simp)
  | setLocation v =>
    simp only [step, editField] at hstep
    split at hstep
    next u c hu hc =>
      split at hstep
      next hEd =>
        simp only [Option.some.injEq, Prod.mk.injEq] at hstep
        obtain ⟨hs', hms⟩ := hstep
        subst hs'; subst hms
        refine ⟨⟨hnd, ?_⟩, by simp⟩
        intro c' hc' d hd hid
        simp only [hc, Option.some.injEq] at hc'
        subst hc'
        exact hsync c hc d hd hid
      next => exact absurd hstep (by simp)
    next => exact absurd hstep (by simp)
  | setMethod v =>
    simp only [step, editField] at hstep
    split at hstep
    next u c hu hc =>
      split at hstep
      next hEd =>
        simp only [Option.some.injEq, Prod.mk.injEq] at hstep
        obtain ⟨hs', hms⟩ := hstep
        subst hs'; subst hms
        refine ⟨⟨hnd, ?_⟩, by simp⟩
        intro c' hc' d hd hid
        simp only [hc, Option.some.injEq] at hc'
        subst hc'
        exact hsync c hc d hd hid
      next => exact absurd hstep (by simp)
    next => exact absurd hstep (by simp)
  | setNotes v =>
    simp only [step, editField] at hstep
    split at hstep
    next u c hu hc =>
      split at hstep
      next hEd =>
        simp only [Option.some.injEq, Prod.mk.injEq] at hstep
        obtain ⟨hs', hms⟩ := hstep
        subst hs'; subst hms
        refine ⟨⟨hnd, ?_⟩, by simp⟩
        intro c' hc' d hd hid
        simp only [hc, Option.some.injEq] at hc'
        subst hc'
        exact hsync c hc d hd hid
      next => exact absurd hstep (by simp)
    next => exact absurd hstep (by simp)
  | setCommonName v =>
    simp only [step, editField] at hstep
    split at hstep
    next u c hu hc =>
      split at hstep
      next hEd =>
        simp only [Option.some.injEq, Prod.mk.injEq] at hstep
        obtain ⟨hs', hms⟩ := hstep
        subst hs'; subst hms
        refine ⟨⟨hnd, ?_⟩, by simp⟩
        intro c' hc' d hd hid
        simp only [hc, Option.some.injEq] at hc'
        subst hc'
        exact hsync c hc d hd hid
      next => exact absurd hstep (by simp)
    next => exact absurd hstep (by simp)
  | setScientificName v =>
    simp only [step, editField] at hstep
    split at hstep
    next u c hu hc =>
      split at hstep
      next hEd =>
        simp only [Option.some.injEq, Prod.mk.injEq] at hstep
        obtain ⟨hs', hms⟩ := hstep
        subst hs'; subst hms
        refine ⟨⟨hnd, ?_⟩, by simp⟩
        intro c' hc' d hd hid
        simp only [hc, Option.some.injEq] at hc'
        subst hc'
        exact hsync c hc d hd hid
      next => exact absurd hstep (by simp)
    next => exact absurd hstep (by simp)
  | save =>
    simp only [step] at hstep
    split at hstep
    next u c hu hc =>
      split at hstep
      next hEd =>
        split at hstep
        next hany =>
          simp only [Option.some.injEq, Prod.mk.injEq] at hstep
          obtain ⟨hs', hms⟩ := hstep
          subst hs'; subst hms
          refine ⟨⟨?_, ?_⟩, ?_⟩
          · show ((s.docs.map fun d =>
                if d.id = c.id then applyEditUpdate s.editedDetails d else d).map
                  fun d => d.id).Nodup
            rw [List.map_map]
            have hcomp : ((fun d : ClientCatch => d.id) ∘ fun d =>
                if d.id = c.id then applyEditUpdate s.editedDetails d else d) =
                fun d : ClientCatch => d.id := by
              funext d
              by_cases hdc : d.id = c.id <;> simp [Function.comp, hdc, applyEditUpdate]
            rw [hcomp]
            exact hnd
          · intro c' hc' d' hd' hid
            simp only [Option.some.injEq] at hc'
            subst hc'
            obtain ⟨d, hd, rfl⟩ := List.mem_map.1 hd'
            have hgid : ∀ x : ClientCatch,
                (if x.id = c.id then applyEditUpdate s.editedDetails x else x).id = x.id := by
              intro x
              by_cases hdc : x.id = c.id <;> simp [hdc, applyEditUpdate]
            have hdid : d.id = c.id := by
              have := hid
              rw [hgid d] at this
              rw [this]
              exact (hgid c).symm ▸ rfl
            have hdc2 : d = c := hsync c hc d hd hdid
            subst hdc2
            simp [hdid]
          · intro m hm
            obtain ⟨d, hd, hfd⟩ := List.mem_filterMap.1 hm
            split at hfd
            next hdid =>
              simp only [Option.some.injEq] at hfd
              subst hfd
              exact permittedEdit_apply _ _
            next => exact absurd hfd (by simp)
        next =>
          simp only [Option.some.injEq, Prod.mk.injEq] at hstep
          obtain ⟨hs', hms⟩ := hstep
          subst hs'; subst hms
          exact ⟨⟨hnd, hsync⟩, by simp⟩
      next => exact absurd hstep (by simp)
    next => exact absurd hstep (by simp)
  | cancel =>
    simp only [step] at hstep
    split at hstep
    next u c hu hc =>
      split at hstep
      next hEd =>
        simp only [Option.some.injEq, Prod.mk.injEq] at hstep
        obtain ⟨hs', hms⟩ := hstep
        subst hs'; subst hms
        refine ⟨⟨hnd, ?_⟩, by simp⟩
        intro c' hc' d hd hid
        simp only [hc, Option.some.injEq] at hc'
        subst hc'
        exact hsync c hc d hd hid
      next => exact absurd hstep (by simp)
    next => exact absurd hstep (by simp)
  | deleteConfirm =>
    simp only [step] at hstep
    split at hstep
    next u c hu hc =>
      split at hstep
      next hg =>
        simp only [Bool.and_eq_true, Bool.not_eq_true'] at hg
        have hown : c.userId = some u := isOwnCatch_userId u c (by rw [← hu]; exact hg.2)
        simp only [Option.some.injEq, Prod.mk.injEq] at hstep
        obtain ⟨hs', hms⟩ := hstep
        subst hs'; subst hms
        refine ⟨⟨?_, ?_⟩, ?_⟩
        · show ((s.docs.filter fun d => !(d.id = c.id : Bool)).map
              fun d => d.id).Nodup
          exact hnd.sublist ((List.filter_sublist _).map _)
        · intro c' hc'
          simp at hc'
        · intro m hm
          simp only [List.mem_cons] at hm
          rcases hm with hm | hm
          · subst hm
            trivial
          · obtain ⟨d, hd, hfd⟩ := List.mem_filterMap.1 hm
            split at hfd
            next hdid =>
              simp only [Option.some.injEq] at hfd
              subst hfd
              have hdc2 : d = c := hsync c hc d hd hdid
              subst hdc2
              exact hown
            next => exact absurd hfd (by simp)
      next => exact absurd hstep (by simp)
    next => exact absurd hstep (by simp)
  | deleteAbort =>
    simp only [step] at hstep
    split at hstep
    next u c hu hc =>
      split at hstep
      next hg =>
        simp only [Option.some.injEq, Prod.mk.injEq] at hstep
        obtain ⟨hs', hms⟩ := hstep
        subst hs'; subst hms
        exact ⟨⟨hnd, hsync⟩, by simp⟩
      next => exact absurd hstep (by simp)
    next => exact absurd hstep (by simp)
  | signOut =>
    simp only [step] at hstep
    split at hstep
    next u hu =>
      simp only [Option.some.injEq, Prod.mk.injEq] at hstep
      obtain ⟨hs', hms⟩ := hstep
      subst hs'; subst hms
      refine ⟨⟨hnd, ?_⟩, by simp⟩
      intro c' hc' d hd hid
      exact hsync c' hc' d hd hid
    next => exact absurd hstep (by simp)
  | signIn u =>
    simp only [step] at hstep
    split at hstep
    next hu =>
      simp only [Option.some.injEq, Prod.mk.injEq] at hstep
      obtain ⟨hs', hms⟩ := hstep
      subst hs'; subst hms
      refine ⟨⟨hnd, ?_⟩, by simp⟩
      intro c' hc' d hd hid
      exact hsync c' hc' d hd hid
    next => exact absurd hstep (by simp)

theorem clientRun_frame (evs : List ClientEvent) :
    ∀ (s s' : ClientState) (ms : List Mutation), ClientFrameInv s →
      clientRun s evs = some (s', ms) →
      ∀ m ∈ ms, MutationFrame m := by
  induction evs with
  | nil =>
    intro s s' ms _ hrun
    simp only [clientRun, Option.some.injEq, Prod.mk.injEq] at hrun
    obtain ⟨_, hms⟩ := hrun
    subst hms
    simp
  | cons e es ih =>
    intro s s' ms hinv hrun
    simp only [clientRun] at hrun
    cases hst : step s e with
    | none => rw [hst] at hrun; exact absurd hrun (by simp)
    | some p =>
      obtain ⟨ps, pms⟩ := p
      rw [hst] at hrun
      simp only [] at hrun
      obtain ⟨hinv', hperm⟩ := step_frame s e ps pms hinv hst
      cases hr : clientRun ps es with
      | none => rw [hr] at hrun; exact absurd hrun (by simp)
      | some q =>
        obtain ⟨qs, qms⟩ := q
        rw [hr] at hrun
        simp only [Option.some.injEq, Prod.mk.injEq] at hrun
        obtain ⟨hs', hms⟩ := hrun
        subst hms
        intro m hm
        rcases List.mem_append.1 hm with hm | hm
        · exact hperm m hm
        · exact ih ps qs qms hinv' hr m hm

/-- C2 (amended): starting from any client state with no record selected and
edit mode off (the application's initial state), every store mutation issued
by the client -- sign-out and sign-in events included -- is an asset delete,
a partial edit touching only `catchDetails.*` and the two identification
name fields with every other field framed, or a deletion of a record owned
by the acting user; and when the signed-in user does not change during the
sequence, every update moreover targets a record owned by the acting user. -/
theorem c2_owner_only_mutations :
    ∀ (s0 : ClientState) (evs : List ClientEvent) (s1 : ClientState)
      (log : List Mutation),
      s0.selectedCatch = none → s0.isEditing = false →
      (s0.docs.map (fun d => d.id)).Nodup →
      clientRun s0 evs = some (s1, log) →
      (∀ m ∈ log, MutationFrame m) ∧
      ((∀ e ∈ evs, isAuthEvent e = false) → ∀ m ∈ log, MutationPermitted m) := by
  intro s0 evs s1 log hsel hed hnd hrun
  have hsync : SelSync s0 := by
    intro c hc
    rw [hsel] at hc
    exact absurd hc (by simp)
  constructor
  · exact clientRun_frame evs s0 s1 log ⟨hnd, hsync⟩ hrun
  · intro hae
    refine clientRun_sound evs s0 s1 log ⟨hnd, hsync, ?_⟩ hae hrun
    intro habs
    rw [hed] at habs
    exact absurd habs (by simp)

/-- C2 counterexample: in a valid event sequence the owner `u1` opens the
edit form, the signed-in user changes to `u2` (sign-out leaves the modal
state in place, and `handleSaveEdit` does no ownership check), and `u2`
saves: the only store mutation of the run is an update issued by `u2` on the
record whose stored userId is `u1`, and the update changes the record. -/
theorem c2_counterexample :
    (clientRun c2InitEx c2EvsEx).map (fun r => r.2) =
      some [Mutation.docUpdate "u2" c2CatchEx
        (applyEditUpdate { initEdited c2CatchEx with location := "pier 9" } c2CatchEx)] ∧
    c2CatchEx.userId = some "u1" ∧
    ¬ ("u2" : String) = "u1" ∧
    ¬ applyEditUpdate { initEdited c2CatchEx with location := "pier 9" } c2CatchEx
        = c2CatchEx := by
  refine ⟨by decide, rfl, by decide, by decide⟩

/-- C2 witness: an ordinary owner edit is a permitted mutation, and the
update of the sign-out/sign-in run still respects the field frame. -/
theorem c2_witness :
    MutationPermitted (Mutation.docUpdate "u1" c2CatchEx
      (applyEditUpdate { initEdited c2CatchEx with location := "dock" } c2CatchEx)) ∧
    MutationFrame (Mutation.docUpdate "u2" c2CatchEx
      (applyEditUpdate { initEdited c2CatchEx with location := "pier 9" } c2CatchEx)) :=
  ⟨(c2_owner_only_mutations c2InitEx c2wEvs c2wOut.1 c2wOut.2 rfl rfl (by decide) rfl).2
      (by decide)
      (Mutation.docUpdate "u1" c2CatchEx
        (applyEditUpdate { initEdited c2CatchEx with location := "dock" } c2CatchEx))
      (by decide),
   (c2_owner_only_mutations c2InitEx c2EvsEx c2xOut.1 c2xOut.2 rfl rfl (by decide) rfl).1
      (Mutation.docUpdate "u2" c2CatchEx
        (applyEditUpdate { initEdited c2CatchEx with location := "pier 9" } c2CatchEx))
      (by decide)⟩

theorem mem_insertByTs (x c : ClientCatch) (l : List ClientCatch) :
    x ∈ insertByTs c l ↔ x = c ∨ x ∈ l := by
  induction l with
  | nil => simp [insertByTs]
  | cons d ds ih =>
    unfold insertByTs
    split
    · simp
    · simp [ih]
      tauto

theorem mem_sortByTimestampDesc (x : ClientCatch) (l : List ClientCatch) :
    x ∈ sortByTimestampDesc l ↔ x ∈ l := by
  induction l with
  | nil => simp [sortByTimestampDesc]
  | cons c cs ih => simp [sortByTimestampDesc, mem_insertByTs, ih]

/-- C8: with the delete controls available (record selected, owned, not in
edit mode), deletion always proceeds: the asset delete is issued first (its
found flag may be false, which is logged and swallowed), every following
mutation is the document delete for the selected id, and the deleted record
id appears in no subsequent `list` or `listAll` result. -/
theorem c8_delete_removes (s : ClientState) (c : ClientCatch) (u : String)
    (hu : s.user = some u) (hc : s.selectedCatch = some c)
    (he : s.isEditing = false) (ho : isOwnCatch s.user c = true) :
    (step s .deleteConfirm).isSome = true ∧
    ∀ (s' : ClientState) (ms : List Mutation),
      step s .deleteConfirm = some (s', ms) →
      ms.head? = some (.assetDelete u c.imageUrl (s.assets.contains c.imageUrl)) ∧
      (∀ m ∈ ms.tail, ∃ d, m = Mutation.docDelete u d ∧ d.id = c.id) ∧
      (∀ (v : String), ∀ r ∈ listCatches v s'.docs, ¬ r.id = c.id) ∧
      (∀ r ∈ listAllCatches s'.docs, ¬ r.id = c.id) := by
  have hg : (!s.isEditing && isOwnCatch (some u) c) = true := by
    rw [← hu, he, ho]
    rfl
  have hstep : step s .deleteConfirm =
      some ({ s with
          assets := s.assets.erase c.imageUrl,
          docs := s.docs.filter (fun d => !(d.id = c.id : Bool)),
          selectedCatch := none, isEditing := false },
        .assetDelete u c.imageUrl (s.assets.contains c.imageUrl) ::
          s.docs.filterMap
            (fun d => if d.id = c.id then some (.docDelete u d) else none)) := by
    simp only [step, hu, hc, hg, if_true]
  refine ⟨by rw [hstep]; rfl, ?_⟩
  intro s' ms h
  rw [hstep] at h
  simp only [Option.some.injEq, Prod.mk.injEq] at h
  obtain ⟨hs', hms⟩ := h
  subst hs'; subst hms
  refine ⟨rfl, ?_, ?_, ?_⟩
  · intro m hm
    obtain ⟨d, hd, hfd⟩ := List.mem_filterMap.1 hm
    split at hfd
    next hdid =>
      simp only [Option.some.injEq] at hfd
      exact ⟨d, hfd.symm, hdid⟩
    next => exact absurd hfd (by simp)
  · intro v r hr
    have hr2 := (mem_sortByTimestampDesc r _).1 hr
    have hr3 := (List.mem_filter.1 hr2).1
    have hp := (List.mem_filter.1 hr3).2
    simpa using hp
  · intro r hr
    have hr2 := (mem_sortByTimestampDesc r _).1 hr
    have hp := (List.mem_filter.1 hr2).2
    simpa using hp

/-- C8 witness: a concrete owned record whose backing asset is already gone
from storage (the not-found case), with the delete step still possible. -/
theorem c8_witness :
    (step c8StateEx .deleteConfirm).isSome = true ∧
    c8StateEx.assets.contains c2CatchEx.imageUrl = false :=
  ⟨(c8_delete_removes c8StateEx c2CatchEx "u1" rfl rfl rfl (by decide)).1, by decide⟩
